import Mathlib

/-!
Verification of the messaging service in `home_works/web_socket.py`.

The embedding models the connection registry (`WebSocketManager`), the
per-frame routing logic of `handle_websocket_connection`, the handshake,
account signup (`create_user_account`), and the sanitisation pipeline
(`html.escape` after Python slicing `[:500]`).  Side effects are made
explicit: a send either delivers `(recipient_token, text)` or raises; a
raised send sets a `crash` flag that mirrors the uncaught Python
exception aborting the surrounding loop.  The account database is an
association list of `(name, token)` rows in insertion order, and the
registry a list of `(token, connection)` pairs mirroring Python's
insertion-ordered `dict`.
-/

namespace WebSocketChat

/-- A live websocket transport.  `ok` records whether `send_text` on it
succeeds (a closed transport raises); `id` distinguishes transports. -/
structure Conn where
  ok : Bool
  id : Nat
deriving DecidableEq, Repr

/-- A delivery event: `(recipient token, delivered text)`. -/
abbrev Delivery := String × String

/-- Python slicing `s[:n]` on a `str` (by code point). -/
def pyTake (s : String) (n : Nat) : String :=
  String.mk (s.toList.take n)

/-- Per-character replacement performed by Python `html.escape` with its
default `quote=True`: `&`, `<`, `>`, `"` and the apostrophe are replaced
by entity references, every other character is kept. -/
def escapeCharL (c : Char) : List Char :=
  if c = '&' then "&amp;".toList
  else if c = '<' then "&lt;".toList
  else if c = '>' then "&gt;".toList
  else if c = Char.ofNat 34 then "&quot;".toList
  else if c = Char.ofNat 39 then "&#x27;".toList
  else [c]

/-- Concatenation of the per-character replacements. -/
def escListMap : List Char → List Char
  | [] => []
  | c :: cs => escapeCharL c ++ escListMap cs

/-- Python `html.escape` (sequential `str.replace` starting with `&`,
which is equivalent to the per-character map). -/
def escapeHtml (s : String) : String :=
  String.mk (escListMap s.toList)

/-- The sanitisation applied to an inbound body in
`handle_websocket_connection`: `html.escape(data.get("message", "")[:500])`. -/
def sanitize (m : String) : String :=
  escapeHtml (pyTake m 500)

/-- `verify_access_token`: `SELECT token FROM users WHERE token = ?`,
returning the stored token of the first matching row, else `None`.
The database is a list of `(name, token)` rows. -/
def verify_access_token (db : List (String × String)) (token : String) : Option String :=
  (db.find? (fun r => r.2 == token)).map (fun r => r.2)

/-- `SELECT token FROM users WHERE name = ?` used to resolve a unicast
recipient. -/
def lookup_by_name (db : List (String × String)) (name : String) : Option String :=
  (db.find? (fun r => r.1 == name)).map (fun r => r.2)

/-- Lookup in `active_connections` (`dict[str, WebSocket]`). -/
def lookupConn (conns : List (String × Conn)) (t : String) : Option Conn :=
  (conns.find? (fun p => p.1 == t)).map (fun p => p.2)

/-- Result of a send sequence: deliveries made, and whether an uncaught
transport exception was raised (aborting the sequence). -/
structure SendOut where
  deliveries : List Delivery
  crash : Bool
deriving DecidableEq, Repr

/-- `WebSocketManager.send_broadcast_message`: iterate the registry in
order, skip excluded tokens, `send_text` to each other connection.  No
exception handling: a failing send aborts the remaining iteration. -/
def sendBroadcast (conns : List (String × Conn)) (msg : String)
    (excl : List String) : SendOut :=
  match conns with
  | [] => ⟨[], false⟩
  | (t, c) :: rest =>
    if t ∈ excl then sendBroadcast rest msg excl
    else if c.ok then
      let r := sendBroadcast rest msg excl
      ⟨(t, msg) :: r.deliveries, r.crash⟩
    else ⟨[], true⟩

/-- `WebSocketManager.send_private_message`: send only if the token has a
registered connection. -/
def sendPrivate (conns : List (String × Conn)) (msg : String) (t : String) : SendOut :=
  match lookupConn conns t with
  | none => ⟨[], false⟩
  | some c => if c.ok then ⟨[(t, msg)], false⟩ else ⟨[], true⟩

/-- An inbound JSON frame: the optional `"to"` field (here `toName`) and
the `"message"` body (`data.get("message", "")` folds a missing body
into `""`). -/
structure Frame where
  toName : Option String
  message : String
deriving DecidableEq, Repr

/-- One iteration of the receive loop in `handle_websocket_connection`
for a decoded frame: sanitize, drop empty bodies, then route.  Python's
`if recipient:` treats both a missing and an empty `"to"` as broadcast. -/
def handleFrame (db : List (String × String)) (conns : List (String × Conn))
    (name token : String) (fr : Frame) : SendOut :=
  let content := sanitize fr.message
  if content == "" then ⟨[], false⟩
  else
    match fr.toName with
    | some r =>
      if r == "" then sendBroadcast conns (name ++ " >>> " ++ content) [token]
      else
        match lookup_by_name db r with
        | some tok2 =>
          if (lookupConn conns tok2).isSome then
            let s1 := sendPrivate conns (name ++ " >>> " ++ content) tok2
            if s1.crash then s1
            else
              let s2 := sendPrivate conns ("Вы >>> " ++ content) token
              ⟨s1.deliveries ++ s2.deliveries, s2.crash⟩
          else sendPrivate conns ("Пользователь " ++ r ++ " не в сети.") token
        | none => sendPrivate conns ("Пользователь " ++ r ++ " не в сети.") token
    | none => sendBroadcast conns (name ++ " >>> " ++ content) [token]

/-- Python `dict` assignment `d[k] = v`: replace in place when the key
exists (keeping its position), else append. -/
def dictSet (m : List (String × Conn)) (k : String) (v : Conn) : List (String × Conn) :=
  if m.any (fun p => p.1 == k) then
    m.map (fun p => if p.1 == k then (k, v) else p)
  else m ++ [(k, v)]

/-- The join presence notice. -/
def joinNotice (name : String) : String := name ++ " подключился к чату"

/-- The leave presence notice. -/
def leaveNotice (name : String) : String := name ++ " покинул чат"

/-- Result of `establish_connection`: the new registry, the transports
explicitly closed during the add, the deliveries of the join broadcast,
and the crash flag of that broadcast. -/
structure EstablishOut where
  conns : List (String × Conn)
  closes : List Conn
  deliveries : List Delivery
  crash : Bool
deriving DecidableEq, Repr

/-- `WebSocketManager.establish_connection`: accept, assign
`active_connections[token] = websocket`, broadcast the join notice
excluding the new token.  The method closes no existing transport, so
`closes` is always empty. -/
def establishConnection (conns : List (String × Conn)) (username token : String)
    (ws : Conn) : EstablishOut :=
  let conns2 := dictSet conns token ws
  let b := sendBroadcast conns2 (joinNotice username) [token]
  ⟨conns2, [], b.deliveries, b.crash⟩

/-- `WebSocketManager.terminate_connection`:
`active_connections.pop(token, None)`. -/
def terminate_connection (conns : List (String × Conn)) (token : String) :
    List (String × Conn) :=
  conns.filter (fun p => !(p.1 == token))

/-- Outcome of the handshake on `/connect/{name}/{token}`: the close
code when rejected, the registry afterwards, the deliveries emitted and
the crash flag. -/
structure HandshakeOut where
  closeCode : Option Nat
  conns : List (String × Conn)
  deliveries : List Delivery
  crash : Bool
deriving DecidableEq, Repr

/-- The guard of `handle_websocket_connection`: reject with close code
1008 when `verify_access_token(token) != token`, else establish the
connection.  The presented `name` plays no part in validation. -/
def handshake (db : List (String × String)) (conns : List (String × Conn))
    (name token : String) (ws : Conn) : HandshakeOut :=
  if verify_access_token db token ≠ some token then ⟨some 1008, conns, [], false⟩
  else
    let e := establishConnection conns name token ws
    ⟨none, e.conns, e.deliveries, e.crash⟩

/-- Result of `POST /signup/{name}`: HTTP status, issued token and the
database afterwards. -/
inductive SignupResult where
  | created (code : Nat) (token : String) (db : List (String × String))
  | rejected (code : Nat) (db : List (String × String))
deriving DecidableEq, Repr

/-- `create_user_account`: the declared path constraint
`Path(min_length=2, max_length=30)` rejects other names with 422 before
the handler runs; a duplicate name raises `HTTPException(400)` before
any insert; otherwise the row is inserted and status 200 (the FastAPI
default, asserted by `test_user_registration_and_token`) is returned
with the freshly generated token. -/
def create_user_account (db : List (String × String)) (name freshTok : String) :
    SignupResult :=
  if ¬ (2 ≤ name.length ∧ name.length ≤ 30) then .rejected 422 db
  else if db.any (fun r => r.1 == name) then .rejected 400 db
  else .created 200 freshTok (db ++ [(name, freshTok)])

/-- The urlsafe base64 alphabet of Python `base64.urlsafe_b64encode`. -/
def b64Alphabet : List Char :=
  "ABCDEFGHIJKLMNOPQRSTUVWXYZabcdefghijklmnopqrstuvwxyz0123456789-_".toList

/-- Digit of the urlsafe base64 alphabet. -/
def b64urlChar (n : Nat) : Char := b64Alphabet.getD n (Char.ofNat 65)

/-- Unpadded urlsafe base64 of a byte list, as produced by
`secrets.token_urlsafe` (encode, strip `=` padding). -/
def base64urlNoPad : List Nat → List Char
  | [] => []
  | [a] => [b64urlChar (a / 4), b64urlChar (a % 4 * 16)]
  | [a, b] => [b64urlChar (a / 4), b64urlChar (a % 4 * 16 + b / 16),
      b64urlChar (b % 16 * 4)]
  | a :: b :: c :: rest =>
      b64urlChar (a / 4) :: b64urlChar (a % 4 * 16 + b / 16) ::
      b64urlChar (b % 16 * 4 + c / 64) :: b64urlChar (c % 64) ::
      base64urlNoPad rest

/-- `secrets.token_urlsafe` applied to the drawn random bytes. -/
def token_urlsafe (bytes : List Nat) : String :=
  String.mk (base64urlNoPad bytes)

/-- The token generation of `create_user_account`:
`secrets.token_urlsafe(32)[:32]` with `bytes` the 32 random bytes. -/
def makeToken (bytes : List Nat) : String :=
  pyTake (token_urlsafe bytes) 32

/-- `pat` occurs as a contiguous substring of `s`. -/
def strContainsSub (s pat : String) : Prop :=
  pat.toList <:+: s.toList

instance (s pat : String) : Decidable (strContainsSub s pat) :=
  List.decidableInfix _ _

/-- The delivered text contains the raw substring of concern. -/
def containsScript (s : String) : Prop :=
  strContainsSub s "<script>"

instance (s : String) : Decidable (containsScript s) :=
  inferInstanceAs (Decidable (strContainsSub s "<script>"))

theorem escapeCharL_ne_nil (c : Char) : escapeCharL c ≠ [] := by
  unfold escapeCharL
  split
  · decide
  · split
    · decide
    · split
      · decide
      · split
        · decide
        · split
          · decide
          · simp

theorem escListMap_eq_self (l : List Char) (h : ∀ c ∈ l, escapeCharL c = [c]) :
    escListMap l = l := by
  induction l with
  | nil => rfl
  | cons c cs ih =>
    simp only [escListMap, h c (List.mem_cons_self c cs)]
    simp only [List.cons_append, List.nil_append]
    exact congrArg (c :: ·) (ih fun x hx => h x (List.mem_cons_of_mem c hx))

theorem escListMap_ne_nil (l : List Char) (h : l ≠ []) : escListMap l ≠ [] := by
  cases l with
  | nil => exact absurd rfl h
  | cons c cs =>
    simp only [escListMap]
    intro he
    exact escapeCharL_ne_nil c (List.append_eq_nil.1 he).1

theorem length_escListMap_replicate_amp (n : Nat) :
    (escListMap (List.replicate n (Char.ofNat 38))).length = 5 * n := by
  induction n with
  | zero => rfl
  | succ k ih =>
    simp only [List.replicate_succ, escListMap, List.length_append, ih]
    simp [escapeCharL]
    omega

theorem sanitize_ne_empty (m : String) (h : m ≠ "") : sanitize m ≠ "" := by
  intro he
  apply h
  have hdata : escListMap (m.toList.take 500) = [] := congrArg String.data he
  have htake : m.toList.take 500 = [] := by
    by_contra hne
    exact escListMap_ne_nil _ hne hdata
  rcases List.take_eq_nil_iff.1 htake with h0 | hnil
  · exact absurd h0 (by decide)
  · cases m
    simp only [String.toList] at hnil
    simp [hnil]

/-- C9: `terminate_connection` is idempotent: removing an absent
credential (in particular removing the same credential a second time) is
a no-op that leaves the registry unchanged, and the code raises no
error (`dict.pop` with a default). -/
theorem C9_terminate_idempotent (conns : List (String × Conn)) (token : String) :
    (token ∉ conns.map Prod.fst → terminate_connection conns token = conns) ∧
    terminate_connection (terminate_connection conns token) token
      = terminate_connection conns token := by
  constructor
  · intro h
    apply List.filter_eq_self.2
    intro p hp
    simp only [Bool.not_eq_true', beq_eq_false_iff_ne, ne_eq]
    intro he
    exact h (he ▸ List.mem_map_of_mem Prod.fst hp)
  · simp [terminate_connection, List.filter_filter]

theorem C9_terminate_idempotent_witness :
    terminate_connection [("a", Conn.mk true 0)] "b" = [("a", Conn.mk true 0)] ∧
    terminate_connection (terminate_connection [("a", Conn.mk true 0)] "b") "b"
      = terminate_connection [("a", Conn.mk true 0)] "b" :=
  ⟨(C9_terminate_idempotent [("a", Conn.mk true 0)] "b").1 (by decide),
   (C9_terminate_idempotent [("a", Conn.mk true 0)] "b").2⟩

/-- C7 counterexample: a 600-character body consisting of `&` characters
is truncated to 500 characters and then escaped, so the body text
actually delivered has length 2500, not 500. -/
theorem C7_counterexample :
    (String.mk (List.replicate 600 (Char.ofNat 38))).length = 600 ∧
    (sanitize (String.mk (List.replicate 600 (Char.ofNat 38)))).length = 2500 ∧
    (handleFrame [] [("tA", Conn.mk true 0), ("tB", Conn.mk true 1)] "a" "tA"
        ⟨none, String.mk (List.replicate 600 (Char.ofNat 38))⟩).deliveries
      = [("tB", "a >>> " ++ sanitize (String.mk (List.replicate 600 (Char.ofNat 38))))] := by
  have htk : (String.mk (List.replicate 600 (Char.ofNat 38))).toList.take 500
      = List.replicate 500 (Char.ofNat 38) := by
    rw [show (String.mk (List.replicate 600 (Char.ofNat 38))).toList
        = List.replicate 600 (Char.ofNat 38) from rfl, List.take_replicate]
    norm_num
  have hs : sanitize (String.mk (List.replicate 600 (Char.ofNat 38)))
      = String.mk (escListMap (List.replicate 500 (Char.ofNat 38))) := by
    rw [show sanitize (String.mk (List.replicate 600 (Char.ofNat 38)))
        = String.mk (escListMap
            ((String.mk (List.replicate 600 (Char.ofNat 38))).toList.take 500)) from rfl,
      htk]
  refine ⟨?_, ?_, ?_⟩
  · rw [show (String.mk (List.replicate 600 (Char.ofNat 38))).length
        = (List.replicate 600 (Char.ofNat 38)).length from rfl, List.length_replicate]
  · rw [hs]
    rw [show (String.mk (escListMap (List.replicate 500 (Char.ofNat 38)))).length
        = (escListMap (List.replicate 500 (Char.ofNat 38))).length from rfl]
    rw [length_escListMap_replicate_amp]
  · have hne : sanitize (String.mk (List.replicate 600 (Char.ofNat 38))) ≠ "" := by
      rw [hs]
      intro he
      have hnil : escListMap (List.replicate 500 (Char.ofNat 38)) = [] :=
        congrArg String.data he
      have h5 : (escListMap (List.replicate 500 (Char.ofNat 38))).length = 2500 :=
        length_escListMap_replicate_amp 500
      rw [hnil] at h5
      simp at h5
    simp only [handleFrame]
    rw [if_neg (by simpa using hne)]
    simp [sendBroadcast]

/-- C7 amended: the body is truncated to its first 500 characters and
then escaped before delivery; the delivered body text is the escape of
the 500-character prefix, and its length is exactly 500 precisely in the
case that the prefix contains no markup-significant characters (escaping
expands such characters, so in general the delivered length exceeds 500). -/
theorem C7_truncate_then_escape (m : String) (h : m.length = 600)
    (hplain : ∀ c ∈ m.toList.take 500, escapeCharL c = [c]) :
    (pyTake m 500).length = 500 ∧ sanitize m = pyTake m 500 ∧
    (sanitize m).length = 500 := by
  have h6 : m.toList.length = 600 := h
  have hlen : (pyTake m 500).length = 500 := by
    rw [show (pyTake m 500).length = (m.toList.take 500).length from rfl,
      List.length_take, h6]
    norm_num
  have heq : sanitize m = pyTake m 500 := by
    simp only [sanitize, escapeHtml, pyTake]
    exact congrArg String.mk (escListMap_eq_self _ hplain)
  exact ⟨hlen, heq, heq ▸ hlen⟩

theorem C7_truncate_then_escape_witness :
    (pyTake (String.mk (List.replicate 600 'a')) 500).length = 500 ∧
    sanitize (String.mk (List.replicate 600 'a'))
      = pyTake (String.mk (List.replicate 600 'a')) 500 ∧
    (sanitize (String.mk (List.replicate 600 'a'))).length = 500 :=
  C7_truncate_then_escape (String.mk (List.replicate 600 'a'))
    (by
      rw [show (String.mk (List.replicate 600 'a')).length
          = (List.replicate 600 'a').length from rfl, List.length_replicate])
    (by
      intro c hc
      simp only [String.toList, List.take_replicate] at hc
      rw [List.eq_of_mem_replicate hc]
      rfl)

/-- C8 counterexample: a successful registration answers with HTTP
status 200 (the FastAPI default, asserted by the source's own test), not
201 as the claim states. -/
theorem C8_counterexample :
    create_user_account [] "ab" "T" = .created 200 "T" [("ab", "T")] ∧
    (200 : Nat) ≠ 201 :=
  ⟨rfl, by decide⟩

/-- C8 amended: registering a fresh valid name succeeds with HTTP status
200 and returns a credential; registering the same name a second time
fails with status 400, issues no credential, changes no state, and
afterwards exactly one credential exists for that name. -/
theorem C8_signup_duplicate (db : List (String × String)) (name tok1 tok2 : String)
    (hlen : 2 ≤ name.length ∧ name.length ≤ 30)
    (hfresh : ∀ r ∈ db, r.1 ≠ name) :
    create_user_account db name tok1 = .created 200 tok1 (db ++ [(name, tok1)]) ∧
    create_user_account (db ++ [(name, tok1)]) name tok2
      = .rejected 400 (db ++ [(name, tok1)]) ∧
    ((db ++ [(name, tok1)]).filter (fun r => r.1 == name)).length = 1 := by
  have hany : db.any (fun r => r.1 == name) = false := by
    simp only [List.any_eq_false]
    intro x hx
    simpa using hfresh x hx
  refine ⟨?_, ?_, ?_⟩
  · simp [create_user_account, hlen, hany]
  · have : (db ++ [(name, tok1)]).any (fun r => r.1 == name) = true := by
      simp [List.any_append]
    simp [create_user_account, hlen, this]
  · rw [List.filter_append]
    have : db.filter (fun r => r.1 == name) = [] := by
      apply List.filter_eq_nil_iff.2
      intro a ha
      simp only [beq_eq_false_iff_ne, ne_eq, Bool.not_eq_true]
      simpa using hfresh a ha
    simp [this]

theorem C8_signup_duplicate_witness :
    create_user_account [] "ab" "T" = .created 200 "T" [("ab", "T")] ∧
    create_user_account [("ab", "T")] "ab" "U" = .rejected 400 [("ab", "T")] ∧
    ([("ab", "T")].filter (fun r : String × String => r.1 == "ab")).length = 1 := by
  have h := C8_signup_duplicate [] "ab" "T" "U" (by decide) (by simp)
  simpa using h

theorem verify_access_token_eq_none (db : List (String × String)) (token : String)
    (h : ∀ r ∈ db, r.2 ≠ token) : verify_access_token db token = none := by
  unfold verify_access_token
  rw [List.find?_eq_none.2]
  · rfl
  · intro x hx
    simpa using h x hx

theorem verify_access_token_eq_some (db : List (String × String)) (token : String)
    (h : ∃ r ∈ db, r.2 = token) : verify_access_token db token = some token := by
  have hs : (db.find? (fun r => r.2 == token)).isSome := by
    rw [List.find?_isSome]
    rcases h with ⟨r, hr, he⟩
    exact ⟨r, hr, by simpa using he⟩
  rcases Option.isSome_iff_exists.1 hs with ⟨r, hr⟩
  have hp : r.2 = token := by simpa using List.find?_some hr
  unfold verify_access_token
  rw [hr]
  simp [hp]

/-- C2 amended: the handshake rejects with close code 1008 exactly when
the presented credential is registered for no account at all; the
presented name is never checked against the credential.  On rejection
nothing is registered and no join notice is emitted. -/
theorem C2_handshake_validation (db : List (String × String))
    (conns : List (String × Conn)) (name token : String) (ws : Conn) :
    ((∀ r ∈ db, r.2 ≠ token) →
      handshake db conns name token ws = ⟨some 1008, conns, [], false⟩) ∧
    ((∃ r ∈ db, r.2 = token) →
      (handshake db conns name token ws).closeCode = none) := by
  constructor
  · intro h
    simp [handshake, verify_access_token_eq_none db token h]
  · intro h
    simp [handshake, verify_access_token_eq_some db token h]

theorem C2_handshake_validation_witness :
    handshake [("alice", "tokA")] [] "x" "nope" (Conn.mk true 0)
      = ⟨some 1008, [], [], false⟩ ∧
    (handshake [("alice", "tokA")] [] "alice" "tokA" (Conn.mk true 0)).closeCode
      = none :=
  ⟨(C2_handshake_validation [("alice", "tokA")] [] "x" "nope" (Conn.mk true 0)).1
      (by decide),
   (C2_handshake_validation [("alice", "tokA")] [] "alice" "tokA" (Conn.mk true 0)).2
      ⟨("alice", "tokA"), by decide, rfl⟩⟩

/-- C2 counterexample: the credential `tokA` belongs to `alice` and does
not validate for the presented name `bob` (there is no account row
pairing `bob` with `tokA`), yet the handshake is accepted: the
connection is registered under `tokA` and a join notice naming `bob` is
delivered — no close with code 1008 occurs. -/
theorem C2_counterexample :
    (("bob", "tokA") ∉ [("alice", "tokA"), ("carol", "tokB")]) ∧
    handshake [("alice", "tokA"), ("carol", "tokB")] [("tokB", Conn.mk true 1)]
        "bob" "tokA" (Conn.mk true 9)
      = ⟨none, [("tokB", Conn.mk true 1), ("tokA", Conn.mk true 9)],
          [("tokB", joinNotice "bob")], false⟩ :=
  ⟨by decide, rfl⟩

theorem find?_map_update (m : List (String × Conn)) (k : String) (v : Conn)
    (h : m.any (fun p => p.1 == k) = true) :
    (m.map (fun p => if p.1 == k then (k, v) else p)).find? (fun p => p.1 == k)
      = some (k, v) := by
  induction m with
  | nil => simp at h
  | cons p rest ih =>
    rw [List.map_cons]
    by_cases hp : p.1 = k
    · have hhead : (if p.1 == k then (k, v) else p) = (k, v) := by simp [hp]
      rw [hhead, List.find?_cons_of_pos _ (by simp)]
    · have hhead : (if p.1 == k then (k, v) else p) = p := by simp [hp]
      have h' : rest.any (fun q => q.1 == k) = true := by
        simp only [List.any_cons, Bool.or_eq_true] at h
        rcases h with hh | hh
        · exact absurd (by simpa using hh) hp
        · exact hh
      rw [hhead, List.find?_cons_of_neg _ (by simpa using hp), ih h']

theorem find?_map_update_other (m : List (String × Conn)) (k : String) (v : Conn)
    (t : String) (ht : t ≠ k) :
    (m.map (fun p => if p.1 == k then (k, v) else p)).find? (fun p => p.1 == t)
      = m.find? (fun p => p.1 == t) := by
  induction m with
  | nil => rfl
  | cons p rest ih =>
    rw [List.map_cons]
    by_cases hp : p.1 = k
    · have hhead : (if p.1 == k then (k, v) else p) = (k, v) := by simp [hp]
      have hpt : ¬ (p.1 == t) = true := by
        simp only [beq_iff_eq]
        intro he
        exact ht (hp ▸ he).symm
      rw [hhead, List.find?_cons_of_neg _ (by simpa using Ne.symm ht),
        @List.find?_cons_of_neg _ (fun q => q.1 == t) p rest hpt, ih]
    · have hhead : (if p.1 == k then (k, v) else p) = p := by simp [hp]
      by_cases hpt : p.1 = t
      · rw [hhead, List.find?_cons_of_pos _ (by simpa using hpt),
          List.find?_cons_of_pos _ (by simpa using hpt)]
      · rw [hhead, List.find?_cons_of_neg _ (by simpa using hpt),
          List.find?_cons_of_neg _ (by simpa using hpt), ih]

theorem keys_dictSet (m : List (String × Conn)) (k : String) (v : Conn) :
    (dictSet m k v).map Prod.fst
      = if m.any (fun p => p.1 == k) then m.map Prod.fst
        else m.map Prod.fst ++ [k] := by
  unfold dictSet
  by_cases h : m.any (fun p => p.1 == k) = true
  · rw [if_pos h, if_pos h, List.map_map]
    apply List.map_congr_left
    intro p _
    by_cases hp : p.1 = k
    · simp [Function.comp, hp]
    · simp [Function.comp, hp]
  · rw [if_neg h, if_neg h, List.map_append]
    rfl

theorem lookupConn_dictSet_self (m : List (String × Conn)) (k : String) (v : Conn) :
    lookupConn (dictSet m k v) k = some v := by
  unfold lookupConn dictSet
  by_cases h : m.any (fun p => p.1 == k) = true
  · rw [if_pos h, find?_map_update m k v h]
    rfl
  · rw [if_neg h, List.find?_append]
    have hnone : m.find? (fun p => p.1 == k) = none := by
      rw [List.find?_eq_none]
      intro x hx
      intro hxk
      exact h (List.any_eq_true.2 ⟨x, hx, hxk⟩)
    rw [hnone, List.find?_cons_of_pos _ (by simp)]
    rfl

theorem lookupConn_dictSet_other (m : List (String × Conn)) (k : String) (v : Conn)
    (t : String) (ht : t ≠ k) :
    lookupConn (dictSet m k v) t = lookupConn m t := by
  unfold lookupConn dictSet
  by_cases h : m.any (fun p => p.1 == k) = true
  · rw [if_pos h, find?_map_update_other m k v t ht]
  · rw [if_neg h, List.find?_append]
    have hlast : ([(k, v)].find? (fun p => p.1 == t)) = none := by
      rw [List.find?_cons_of_neg _ (by simpa using Ne.symm ht)]
      rfl
    rw [hlast]
    cases m.find? (fun p => p.1 == t) <;> rfl

/-- C6 counterexample: adding a second connection under a credential
that already has a registry entry closes nothing — `closes` is empty
even though the entry for `t` existed — and the old connection is
silently replaced by the new one. -/
theorem C6_counterexample :
    (establishConnection [("t", Conn.mk true 1)] "u" "t" (Conn.mk true 2)).closes
      = [] ∧
    (establishConnection [("t", Conn.mk true 1)] "u" "t" (Conn.mk true 2)).conns
      = [("t", Conn.mk true 2)] :=
  ⟨rfl, rfl⟩

/-- C6 amended: adding a connection under a credential that already has
an entry silently overwrites that entry in place: the old connection is
never closed (`establish_connection` issues no close), the registry
afterwards maps the credential to the new connection, other credentials
are untouched, and — by dict-key uniqueness — at most one connection per
credential is still registered. -/
theorem C6_add_overwrites (conns : List (String × Conn)) (username token : String)
    (ws : Conn) (hnd : (conns.map Prod.fst).Nodup) :
    (establishConnection conns username token ws).closes = [] ∧
    lookupConn (establishConnection conns username token ws).conns token
      = some ws ∧
    ((establishConnection conns username token ws).conns.map Prod.fst).Nodup ∧
    (∀ t, t ≠ token →
      lookupConn (establishConnection conns username token ws).conns t
        = lookupConn conns t) := by
  refine ⟨rfl, ?_, ?_, ?_⟩
  · exact lookupConn_dictSet_self conns token ws
  · show ((dictSet conns token ws).map Prod.fst).Nodup
    rw [keys_dictSet]
    by_cases h : conns.any (fun p => p.1 == token) = true
    · rw [if_pos h]
      exact hnd
    · rw [if_neg h]
      rw [List.nodup_append]
      refine ⟨hnd, List.nodup_singleton token, ?_⟩
      intro x hx hxk
      rcases List.mem_map.1 hx with ⟨p, hp, hfst⟩
      have hxtok : x = token := by simpa using hxk
      exact h (List.any_eq_true.2 ⟨p, hp, by simp [hfst, hxtok]⟩)
  · intro t ht
    exact lookupConn_dictSet_other conns token ws t ht

theorem C6_add_overwrites_witness :
    (establishConnection [("s", Conn.mk true 7)] "u" "s" (Conn.mk true 8)).closes
      = [] ∧
    lookupConn (establishConnection [("s", Conn.mk true 7)] "u" "s"
        (Conn.mk true 8)).conns "s" = some (Conn.mk true 8) ∧
    ((establishConnection [("s", Conn.mk true 7)] "u" "s"
        (Conn.mk true 8)).conns.map Prod.fst).Nodup ∧
    (∀ t, t ≠ "s" →
      lookupConn (establishConnection [("s", Conn.mk true 7)] "u" "s"
          (Conn.mk true 8)).conns t
        = lookupConn [("s", Conn.mk true 7)] t) :=
  C6_add_overwrites [("s", Conn.mk true 7)] "u" "s" (Conn.mk true 8) (by decide)

theorem sendBroadcast_all_ok (msg : String) (excl : List String) :
    ∀ conns : List (String × Conn), (∀ p ∈ conns, p.2.ok = true) →
      sendBroadcast conns msg excl
        = ⟨(conns.filter (fun p => decide (p.1 ∉ excl))).map (fun p => (p.1, msg)),
           false⟩ := by
  intro conns
  induction conns with
  | nil => intro _; rfl
  | cons p rest ih =>
    intro hok
    obtain ⟨t, c⟩ := p
    have hco : c.ok = true := hok (t, c) (List.mem_cons_self _ _)
    have ihr := ih fun q hq => hok q (List.mem_cons_of_mem _ hq)
    by_cases hm : t ∈ excl
    · simp only [sendBroadcast, if_pos hm, ihr, List.filter_cons]
      simp [hm]
    · simp only [sendBroadcast, if_neg hm, hco, if_true, ihr, List.filter_cons]
      simp [hm]

theorem sendBroadcast_aborts (msg : String) (excl : List String) (t : String)
    (c : Conn) (post : List (String × Conn)) :
    ∀ pre : List (String × Conn), (∀ p ∈ pre, p.2.ok = true) → t ∉ excl →
      c.ok = false →
      sendBroadcast (pre ++ (t, c) :: post) msg excl
        = ⟨(pre.filter (fun p => decide (p.1 ∉ excl))).map (fun p => (p.1, msg)),
           true⟩ := by
  intro pre
  induction pre with
  | nil =>
    intro _ ht hc
    simp only [List.nil_append, sendBroadcast, if_neg ht, hc]
    rfl
  | cons p rest ih =>
    intro hok ht hc
    obtain ⟨u, d⟩ := p
    have hdo : d.ok = true := hok (u, d) (List.mem_cons_self _ _)
    have ihr := ih (fun q hq => hok q (List.mem_cons_of_mem _ hq)) ht hc
    by_cases hm : u ∈ excl
    · simp only [List.cons_append, sendBroadcast, if_pos hm, List.append_eq]
      rw [ihr]
      simp [List.filter_cons, hm]
    · simp only [List.cons_append, sendBroadcast, if_neg hm, hdo, if_true, List.append_eq]
      rw [ihr]
      simp [List.filter_cons, hm]

theorem length_filter_ne_token (token : String) :
    ∀ conns : List (String × Conn), (conns.map Prod.fst).Nodup →
      token ∈ conns.map Prod.fst →
      (conns.filter (fun p => !(p.1 == token))).length = conns.length - 1 := by
  intro conns
  induction conns with
  | nil => intro _ hmem; simp at hmem
  | cons p rest ih =>
    intro hnd hmem
    simp only [List.map_cons, List.nodup_cons] at hnd
    obtain ⟨hp1, hnd'⟩ := hnd
    by_cases hpt : p.1 = token
    · have hrest : ∀ q ∈ rest, (!(q.1 == token)) = true := by
        intro q hq
        simp only [Bool.not_eq_true', beq_eq_false_iff_ne, ne_eq]
        intro he
        exact hp1 (hpt ▸ he ▸ List.mem_map_of_mem Prod.fst hq)
      rw [List.filter_cons_of_neg (by simp [hpt]), List.filter_eq_self.2 hrest]
      simp
    · have hmem' : token ∈ rest.map Prod.fst := by
        rcases List.mem_cons.1 hmem with he | hq
        · exact absurd he.symm hpt
        · exact hq
      have hne : rest ≠ [] := by
        intro he
        rw [he] at hmem'
        simp at hmem'
      have hpos : 0 < rest.length := List.length_pos.2 hne
      rw [List.filter_cons_of_pos (by simp [hpt])]
      simp only [List.length_cons]
      rw [ih hnd' hmem']
      omega

theorem sendPrivate_ok (conns : List (String × Conn)) (msg t : String) (c : Conn)
    (hc : lookupConn conns t = some c) (hok : c.ok = true) :
    sendPrivate conns msg t = ⟨[(t, msg)], false⟩ := by
  simp [sendPrivate, hc, hok]

/-- C3: when a connected user broadcasts a non-empty sanitized body to N
distinct connected users, `"{sender} >>> {body}"` is delivered to
exactly the N−1 other connected users — one delivery per other
credential, none to the sender — and the loop does not crash. -/
theorem C3_broadcast_reaches_others (db : List (String × String))
    (conns : List (String × Conn)) (name token m : String)
    (hok : ∀ p ∈ conns, p.2.ok = true)
    (hnd : (conns.map Prod.fst).Nodup)
    (hmem : token ∈ conns.map Prod.fst)
    (hm : m ≠ "") :
    (handleFrame db conns name token ⟨none, m⟩).crash = false ∧
    (handleFrame db conns name token ⟨none, m⟩).deliveries
      = (conns.filter (fun p => !(p.1 == token))).map
          (fun p => (p.1, name ++ " >>> " ++ sanitize m)) ∧
    (handleFrame db conns name token ⟨none, m⟩).deliveries.length
      = conns.length - 1 ∧
    token ∉ (handleFrame db conns name token ⟨none, m⟩).deliveries.map Prod.fst := by
  have hcontent : ¬ (sanitize m == "") = true := by
    simpa using sanitize_ne_empty m hm
  have hred : handleFrame db conns name token ⟨none, m⟩
      = sendBroadcast conns (name ++ " >>> " ++ sanitize m) [token] := by
    simp only [handleFrame]
    rw [if_neg hcontent]
  have hfe : conns.filter (fun p => decide (p.1 ∉ ([token] : List String)))
      = conns.filter (fun p => !(p.1 == token)) := by
    apply List.filter_congr
    intro p _
    by_cases h : p.1 = token <;> simp [h]
  rw [hred, sendBroadcast_all_ok _ _ conns hok, hfe]
  refine ⟨rfl, rfl, ?_, ?_⟩
  · rw [List.length_map]
    exact length_filter_ne_token token conns hnd hmem
  · intro hin
    rw [List.map_map] at hin
    rcases List.mem_map.1 hin with ⟨p, hp, hfst⟩
    have hpred := List.of_mem_filter hp
    simp only [Bool.not_eq_true', beq_eq_false_iff_ne, ne_eq] at hpred
    exact hpred (by simpa using hfst)

theorem C3_broadcast_reaches_others_witness :
    (handleFrame [] [("tA", Conn.mk true 0), ("tB", Conn.mk true 1)] "a" "tA"
        ⟨none, "hi"⟩).crash = false ∧
    (handleFrame [] [("tA", Conn.mk true 0), ("tB", Conn.mk true 1)] "a" "tA"
        ⟨none, "hi"⟩).deliveries
      = ([("tA", Conn.mk true 0), ("tB", Conn.mk true 1)].filter
          (fun p => !(p.1 == "tA"))).map
          (fun p => (p.1, "a" ++ " >>> " ++ sanitize "hi")) ∧
    (handleFrame [] [("tA", Conn.mk true 0), ("tB", Conn.mk true 1)] "a" "tA"
        ⟨none, "hi"⟩).deliveries.length
      = [("tA", Conn.mk true 0), ("tB", Conn.mk true 1)].length - 1 ∧
    "tA" ∉ (handleFrame [] [("tA", Conn.mk true 0), ("tB", Conn.mk true 1)] "a" "tA"
        ⟨none, "hi"⟩).deliveries.map Prod.fst :=
  C3_broadcast_reaches_others [] [("tA", Conn.mk true 0), ("tB", Conn.mk true 1)]
    "a" "tA" "hi" (by decide) (by decide) (by decide) (by decide)

/-- C4: a connected sender who unicasts to a recipient name that is
either unknown to the account store or resolves to a credential with no
live connection receives exactly one offline notice, and no message is
delivered to anyone else. -/
theorem C4_unicast_offline (db : List (String × String))
    (conns : List (String × Conn)) (name token m r : String) (c : Conn)
    (hc : lookupConn conns token = some c) (hco : c.ok = true)
    (hm : m ≠ "") (hr : r ≠ "")
    (hoff : ∀ tok2, lookup_by_name db r = some tok2 → lookupConn conns tok2 = none) :
    handleFrame db conns name token ⟨some r, m⟩
      = ⟨[(token, "Пользователь " ++ r ++ " не в сети.")], false⟩ := by
  have hcontent : ¬ (sanitize m == "") = true := by
    simpa using sanitize_ne_empty m hm
  have hrne : ¬ (r == "") = true := by simpa using hr
  have hred : handleFrame db conns name token ⟨some r, m⟩
      = sendPrivate conns ("Пользователь " ++ r ++ " не в сети.") token := by
    simp only [handleFrame]
    rw [if_neg hcontent, if_neg hrne]
    cases hl : lookup_by_name db r with
    | none => rfl
    | some tok2 =>
      have hn : lookupConn conns tok2 = none := hoff tok2 hl
      simp [hn]
  rw [hred]
  exact sendPrivate_ok conns _ token c hc hco

theorem C4_unicast_offline_witness :
    handleFrame [("bob", "tokB")] [("tokA", Conn.mk true 0)] "alice" "tokA"
        ⟨some "bob", "hi"⟩
      = ⟨[("tokA", "Пользователь " ++ "bob" ++ " не в сети.")], false⟩ :=
  C4_unicast_offline [("bob", "tokB")] [("tokA", Conn.mk true 0)] "alice" "tokA"
    "hi" "bob" (Conn.mk true 0) rfl rfl (by decide) (by decide)
    (by intro tok2 hl; cases hl; rfl)

/-- C5 counterexample: with connections `tA`, `tB`, `tC` in registry
order and `tB`'s transport failing, a broadcast from `tA` delivers to
nobody — the failure on `tB` aborts the iteration before `tC` is
reached — and the uncaught exception crashes the sender's loop
(`crash = true`). -/
theorem C5_counterexample :
    handleFrame []
        [("tA", Conn.mk true 0), ("tB", Conn.mk false 1), ("tC", Conn.mk true 2)]
        "a" "tA" ⟨none, "x"⟩
      = ⟨[], true⟩ := by
  decide

/-- C5 amended: a failing send during a broadcast is not isolated: the
recipients that precede the failing connection in registry order have
already received the message, every recipient after it receives
nothing, and the exception propagates out of the send loop (crashing
the sender's connection handler, which catches only disconnects). -/
theorem C5_broadcast_abort (msg : String) (excl : List String) (t : String)
    (c : Conn) (post pre : List (String × Conn))
    (hpre : ∀ p ∈ pre, p.2.ok = true) (ht : t ∉ excl) (hc : c.ok = false) :
    sendBroadcast (pre ++ (t, c) :: post) msg excl
      = ⟨(pre.filter (fun p => decide (p.1 ∉ excl))).map (fun p => (p.1, msg)),
         true⟩ :=
  sendBroadcast_aborts msg excl t c post pre hpre ht hc

theorem C5_broadcast_abort_witness :
    sendBroadcast
        [("A", Conn.mk true 0), ("B", Conn.mk false 1), ("C", Conn.mk true 2)]
        "m" ["S"]
      = ⟨([("A", Conn.mk true 0)].filter
            (fun p => decide (p.1 ∉ (["S"] : List String)))).map
            (fun p => (p.1, "m")), true⟩ :=
  C5_broadcast_abort "m" ["S"] "B" (Conn.mk false 1) [("C", Conn.mk true 2)]
    [("A", Conn.mk true 0)] (by decide) (by decide) rfl

theorem lt_not_mem_escapeCharL (c : Char) : ('<' : Char) ∉ escapeCharL c := by
  unfold escapeCharL
  by_cases h1 : c = '&'
  · rw [if_pos h1]; decide
  · rw [if_neg h1]
    by_cases h2 : c = '<'
    · rw [if_pos h2]; decide
    · rw [if_neg h2]
      by_cases h3 : c = '>'
      · rw [if_pos h3]; decide
      · rw [if_neg h3]
        by_cases h4 : c = Char.ofNat 34
        · rw [if_pos h4]; decide
        · rw [if_neg h4]
          by_cases h5 : c = Char.ofNat 39
          · rw [if_pos h5]; decide
          · rw [if_neg h5]
            intro hm
            exact h2 (List.mem_singleton.1 hm).symm

theorem lt_not_mem_escListMap (l : List Char) : ('<' : Char) ∉ escListMap l := by
  induction l with
  | nil => simp [escListMap]
  | cons c cs ih =>
    simp only [escListMap, List.mem_append]
    intro hm
    rcases hm with hm | hm
    · exact lt_not_mem_escapeCharL c hm
    · exact ih hm

theorem strToList_append (a b : String) : (a ++ b).toList = a.toList ++ b.toList := rfl

theorem not_containsScript_of_no_lt (s : String) (h : ('<' : Char) ∉ s.toList) :
    ¬ containsScript s := by
  intro hc
  exact h (hc.subset (show ('<' : Char) ∈ "<script>".toList by decide))

theorem sendBroadcast_msg (conns : List (String × Conn)) (msg : String)
    (excl : List String) :
    ∀ d ∈ (sendBroadcast conns msg excl).deliveries, d.2 = msg := by
  induction conns with
  | nil => intro d hd; simp [sendBroadcast] at hd
  | cons p rest ih =>
    obtain ⟨t, c⟩ := p
    intro d hd
    by_cases hm : t ∈ excl
    · simp only [sendBroadcast, if_pos hm] at hd
      exact ih d hd
    · simp only [sendBroadcast, if_neg hm] at hd
      by_cases hc : c.ok = true
      · simp only [hc, if_true] at hd
        rcases List.mem_cons.1 hd with he | hm2
        · rw [he]
        · exact ih d hm2
      · simp only [Bool.not_eq_true] at hc
        simp [hc] at hd

theorem sendPrivate_msg (conns : List (String × Conn)) (msg t : String) :
    ∀ d ∈ (sendPrivate conns msg t).deliveries, d.2 = msg := by
  intro d hd
  unfold sendPrivate at hd
  cases hl : lookupConn conns t with
  | none => rw [hl] at hd; simp at hd
  | some c =>
    rw [hl] at hd
    by_cases hc : c.ok = true
    · simp only [hc, if_true] at hd
      rw [List.mem_singleton.1 hd]
    · simp only [Bool.not_eq_true] at hc
      simp [hc] at hd

theorem handleFrame_msgs (db : List (String × String)) (conns : List (String × Conn))
    (name token : String) (fr : Frame) :
    ∀ d ∈ (handleFrame db conns name token fr).deliveries,
      d.2 = name ++ " >>> " ++ sanitize fr.message ∨
      d.2 = "Вы >>> " ++ sanitize fr.message ∨
      (∃ r, fr.toName = some r ∧ d.2 = "Пользователь " ++ r ++ " не в сети.") := by
  obtain ⟨oto, m⟩ := fr
  by_cases hc : (sanitize m == "") = true
  · intro d hd
    simp only [handleFrame, if_pos hc] at hd
    simp at hd
  · cases oto with
    | none =>
      intro d hd
      simp only [handleFrame, if_neg hc] at hd
      exact Or.inl (sendBroadcast_msg conns _ [token] d hd)
    | some r =>
      intro d hd
      simp only [handleFrame, if_neg hc] at hd
      by_cases hr : (r == "") = true
      · rw [if_pos hr] at hd
        exact Or.inl (sendBroadcast_msg conns _ [token] d hd)
      · rw [if_neg hr] at hd
        cases hl : lookup_by_name db r with
        | none =>
          rw [hl] at hd
          exact Or.inr (Or.inr ⟨r, rfl, sendPrivate_msg conns _ token d hd⟩)
        | some tok2 =>
          rw [hl] at hd
          by_cases hs : (lookupConn conns tok2).isSome = true
          · simp only [hs, if_true] at hd
            by_cases hcr : (sendPrivate conns (name ++ " >>> " ++ sanitize m) tok2).crash
              = true
            · simp only [hcr, if_true] at hd
              exact Or.inl (sendPrivate_msg conns _ tok2 d hd)
            · simp only [Bool.not_eq_true] at hcr
              simp only [hcr, Bool.false_eq_true, if_false, List.mem_append] at hd
              rcases hd with hd | hd
              · exact Or.inl (sendPrivate_msg conns _ tok2 d hd)
              · exact Or.inr (Or.inl (sendPrivate_msg conns _ token d hd))
          · simp only [Bool.not_eq_true] at hs
            simp only [hs, Bool.false_eq_true, if_false] at hd
            exact Or.inr (Or.inr ⟨r, rfl, sendPrivate_msg conns _ token d hd⟩)

/-- C1 counterexample: the recipient name supplied in the frame is not
escaped: a unicast addressed to the unknown name `<script>` makes the
offline notice carry the raw substring `<script>` back to the sender. -/
theorem C1_counterexample :
    handleFrame [("alice", "tokA")] [("tokA", Conn.mk true 0)] "alice" "tokA"
        ⟨some "<script>", "hi"⟩
      = ⟨[("tokA", "Пользователь <script> не в сети.")], false⟩ ∧
    containsScript "Пользователь <script> не в сети." := by
  constructor
  · decide
  · decide

/-- C1 amended: the message body is escaped, so the sanitized body never
contributes a `<` character and `<script>` can never appear through it;
but the sender's path name and the frame's recipient name are delivered
verbatim, so the raw substring `<script>` is absent from every delivered
payload (broadcast, unicast, echo, offline, join and leave notices) only
under the assumption that those names contain no `<`. -/
theorem C1_escaped_delivery (db : List (String × String))
    (conns : List (String × Conn)) (name token : String) (fr : Frame)
    (hname : ('<' : Char) ∉ name.toList)
    (hto : ∀ r, fr.toName = some r → ('<' : Char) ∉ r.toList) :
    (∀ d ∈ (handleFrame db conns name token fr).deliveries,
      ¬ containsScript d.2) ∧
    ¬ containsScript (joinNotice name) ∧
    ¬ containsScript (leaveNotice name) ∧
    (∀ m : String, ¬ containsScript (sanitize m)) := by
  have hsan : ∀ m : String, ('<' : Char) ∉ (sanitize m).toList := by
    intro m
    exact lt_not_mem_escListMap _
  refine ⟨?_, ?_, ?_, fun m => not_containsScript_of_no_lt _ (hsan m)⟩
  · intro d hd
    rcases handleFrame_msgs db conns name token fr d hd with he | he | ⟨r, hr, he⟩
    · apply not_containsScript_of_no_lt
      rw [he, strToList_append, strToList_append]
      simp only [List.mem_append]
      rintro ((hm | hm) | hm)
      · exact hname hm
      · revert hm; decide
      · exact hsan fr.message hm
    · apply not_containsScript_of_no_lt
      rw [he, strToList_append]
      simp only [List.mem_append]
      rintro (hm | hm)
      · revert hm; decide
      · exact hsan fr.message hm
    · apply not_containsScript_of_no_lt
      rw [he, strToList_append, strToList_append]
      simp only [List.mem_append]
      rintro ((hm | hm) | hm)
      · revert hm; decide
      · exact hto r hr hm
      · revert hm; decide
  · apply not_containsScript_of_no_lt
    rw [joinNotice, strToList_append]
    simp only [List.mem_append]
    rintro (hm | hm)
    · exact hname hm
    · revert hm; decide
  · apply not_containsScript_of_no_lt
    rw [leaveNotice, strToList_append]
    simp only [List.mem_append]
    rintro (hm | hm)
    · exact hname hm
    · revert hm; decide

theorem C1_escaped_delivery_witness :
    (∀ d ∈ (handleFrame [] [("tA", Conn.mk true 0), ("tB", Conn.mk true 1)]
        "alice" "tA" ⟨none, "<script>hi"⟩).deliveries,
      ¬ containsScript d.2) ∧
    ¬ containsScript (joinNotice "alice") ∧
    ¬ containsScript (leaveNotice "alice") ∧
    (∀ m : String, ¬ containsScript (sanitize m)) :=
  C1_escaped_delivery [] [("tA", Conn.mk true 0), ("tB", Conn.mk true 1)]
    "alice" "tA" ⟨none, "<script>hi"⟩ (by decide) (fun r hr => by cases hr)

theorem length_base64urlNoPad (l : List Nat) :
    (base64urlNoPad l).length
      = 4 * (l.length / 3) + (if l.length % 3 = 0 then 0 else l.length % 3 + 1) := by
  induction l using base64urlNoPad.induct with
  | case1 => rfl
  | case2 a =>
    simp only [base64urlNoPad, List.length_cons, List.length_nil, List.length_singleton]
    norm_num
  | case3 a b =>
    simp only [base64urlNoPad, List.length_cons, List.length_nil, List.length_singleton]
    norm_num
  | case4 a b c rest ih =>
    simp only [base64urlNoPad, List.length_cons, ih]
    have h3 : (rest.length + 1 + 1 + 1) % 3 = rest.length % 3 := by omega
    have h4 : (rest.length + 1 + 1 + 1) / 3 = rest.length / 3 + 1 := by omega
    rw [h3, h4]
    by_cases h : rest.length % 3 = 0 <;> simp [h] <;> omega

/-- C10: every credential issued by a successful `POST /signup/{name}`
has exactly 32 characters — `secrets.token_urlsafe(32)` yields 43
characters, and slicing `[:32]` keeps the first 32 — and the `name` path
parameter is accepted only when its length lies between 2 and 30
inclusive (the declared `Path(min_length=2, max_length=30)` bound). -/
theorem C10_token_and_name (db : List (String × String)) (name : String)
    (bytes : List Nat) (hb : bytes.length = 32) :
    (makeToken bytes).length = 32 ∧
    (∀ st tok db2,
      create_user_account db name (makeToken bytes) = .created st tok db2 →
      (2 ≤ name.length ∧ name.length ≤ 30) ∧ tok.length = 32) := by
  have h43 : (base64urlNoPad bytes).length = 43 := by
    rw [length_base64urlNoPad, hb]
    norm_num
  have hlen : (makeToken bytes).length = 32 := by
    rw [show (makeToken bytes).length = ((base64urlNoPad bytes).take 32).length
      from rfl, List.length_take, h43]
    norm_num
  refine ⟨hlen, ?_⟩
  intro st tok db2 hcr
  unfold create_user_account at hcr
  by_cases hv : 2 ≤ name.length ∧ name.length ≤ 30
  · rw [if_neg (not_not_intro hv)] at hcr
    by_cases hdup : db.any (fun r => r.1 == name) = true
    · rw [if_pos hdup] at hcr
      exact absurd hcr (by simp)
    · simp only [Bool.not_eq_true] at hdup
      rw [if_neg (by simp [hdup])] at hcr
      rw [SignupResult.created.injEq] at hcr
      obtain ⟨h1, h2, h3⟩ := hcr
      exact ⟨hv, h2 ▸ hlen⟩
  · rw [if_pos hv] at hcr
    exact absurd hcr (by simp)

theorem C10_token_and_name_witness :
    (makeToken (List.replicate 32 0)).length = 32 ∧
    (∀ st tok db2,
      create_user_account [] "ab" (makeToken (List.replicate 32 0))
        = .created st tok db2 →
      (2 ≤ ("ab" : String).length ∧ ("ab" : String).length ≤ 30) ∧
      tok.length = 32) :=
  C10_token_and_name [] "ab" (List.replicate 32 0) (by simp)

end WebSocketChat
